import Mathlib

/-!
# Verification of the Telegram-auth / session-token core

A shallow embedding, in Lean 4, of the authentication core of the
flashcard application: the Telegram login-widget assertion verifier and
the stateless HS256 session-token codec (`auth.ts`, mirrored in the
worker build).  JavaScript strings are modelled as lists of character
codes (the auth core handles ASCII data; multi-byte UTF-8 is outside the
model), the clock (`Date.now()`) is passed explicitly in seconds, and
the cryptographic primitives (SHA-256 and HMAC-SHA256, which come from
the platform, not from this repository) are abstract byte functions.
-/

set_option autoImplicit false

namespace UnityPrepAuth

/-- A JavaScript string, modelled as its list of (ASCII) character codes. -/
abbrev Str := List Nat

/-- A byte sequence (`Buffer` / `Uint8Array`). -/
abbrev Bytes := List Nat

/-- All entries are genuine bytes. -/
def ValidBytes (b : Bytes) : Prop := ∀ x ∈ b, x < 256

instance (b : Bytes) : Decidable (ValidBytes b) := by
  unfold ValidBytes; infer_instance

/-- An ASCII string: every character code fits in 7 bits. -/
def AsciiStr (s : Str) : Prop := ∀ x ∈ s, x < 128

instance (s : Str) : Decidable (AsciiStr s) := by
  unfold AsciiStr; infer_instance

/-- Character codes of a Lean string literal. -/
def strLit (s : String) : Str := s.data.map Char.toNat

/- ## Base64 / base64url

`base64UrlEncode` in the source converts to standard base64
(`Buffer.toString('base64')`), then replaces `+` with `-`, `/` with `_`
and strips the trailing `=` padding.  `base64UrlDecode` maps the url
characters back, re-adds the padding and decodes with the platform's
lenient base64 decoder (which skips characters outside the alphabet). -/

/-- The standard base64 alphabet: 6-bit index to character code. -/
def base64IndexChar (i : Nat) : Nat :=
  if i < 26 then 65 + i
  else if i < 52 then 97 + (i - 26)
  else if i < 62 then 48 + (i - 52)
  else if i = 62 then 43
  else 47

/-- Character code back to 6-bit index; `none` off the alphabet. -/
def base64CharIndex (c : Nat) : Option Nat :=
  if 65 ≤ c ∧ c ≤ 90 then some (c - 65)
  else if 97 ≤ c ∧ c ≤ 122 then some (26 + (c - 97))
  else if 48 ≤ c ∧ c ≤ 57 then some (52 + (c - 48))
  else if c = 43 then some 62
  else if c = 47 then some 63
  else none

/-- Bytes to 6-bit groups, with the standard short-block handling. -/
def toSextets : Bytes → List Nat
  | a :: b :: c :: rest =>
      a / 4 :: ((a % 4) * 16 + b / 16) :: ((b % 16) * 4 + c / 64) :: (c % 64)
        :: toSextets rest
  | [a, b] => [a / 4, (a % 4) * 16 + b / 16, (b % 16) * 4]
  | [a] => [a / 4, (a % 4) * 16]
  | [] => []

/-- 6-bit groups back to bytes, with lenient tail handling (a leftover
group of two or three sextets yields one or two bytes, a single leftover
sextet is dropped), matching the platform decoder. -/
def fromSextets : List Nat → Bytes
  | w :: x :: y :: z :: rest =>
      (w * 4 + x / 16) :: ((x % 16) * 16 + y / 4) :: ((y % 4) * 64 + z)
        :: fromSextets rest
  | [w, x, y] => [w * 4 + x / 16, (x % 16) * 16 + y / 4]
  | [w, x] => [w * 4 + x / 16]
  | _ => []

/-- Number of `=` padding characters standard base64 appends. -/
def base64PadLen (n : Nat) : Nat := (3 - n % 3) % 3

/-- `Buffer.toString('base64')`: sextets through the alphabet, plus padding. -/
def base64Encode (b : Bytes) : Str :=
  (toSextets b).map base64IndexChar ++ List.replicate (base64PadLen b.length) 61

/-- The platform's lenient base64 decoder: characters outside the
alphabet (including `=`) are skipped, then 6-bit groups are packed. -/
def base64Decode (s : Str) : Bytes :=
  fromSextets (s.filterMap base64CharIndex)

/-- `+` to `-` and `/` to `_` (the two `replace` calls of `base64UrlEncode`). -/
def urlSafeChar (c : Nat) : Nat := if c = 43 then 45 else if c = 47 then 95 else c

/-- `-` to `+` and `_` to `/` (the normalisation step of `base64UrlDecode`). -/
def urlUnsafeChar (c : Nat) : Nat := if c = 45 then 43 else if c = 95 then 47 else c

/-- Strip the trailing run of `=` characters (`replace(/=+$/g, '')`). -/
def dropTrailingEq (s : Str) : Str := (s.reverse.dropWhile (· = 61)).reverse

/-- `base64UrlEncode`: standard base64, url-safe characters, no padding. -/
def base64UrlEncode (b : Bytes) : Str :=
  dropTrailingEq ((base64Encode b).map urlSafeChar)

/-- `base64UrlDecode`: undo the url mapping, re-add the `=` padding the
encoder stripped, and decode as standard base64. -/
def base64UrlDecode (s : Str) : Bytes :=
  let normalized := s.map urlUnsafeChar
  let padLength := (4 - normalized.length % 4) % 4
  base64Decode (normalized ++ List.replicate padLength 61)

theorem toSextets_lt (b : Bytes) (hb : ValidBytes b) : ∀ s ∈ toSextets b, s < 64 := by
  induction b using toSextets.induct with
  | case1 a x c rest ih =>
      have ha := hb a (by simp)
      have hx := hb x (by simp)
      have hc := hb c (by simp)
      intro s hs
      simp only [toSextets, List.mem_cons] at hs
      rcases hs with h | h | h | h | h
      · omega
      · omega
      · omega
      · omega
      · exact ih (fun y hy => hb y (by simp [hy])) s h
  | case2 a x =>
      have ha := hb a (by simp)
      have hx := hb x (by simp)
      intro s hs
      simp only [toSextets, List.mem_cons] at hs
      rcases hs with h | h | h | h <;> simp at * <;> omega
  | case3 a =>
      have ha := hb a (by simp)
      intro s hs
      simp only [toSextets, List.mem_cons] at hs
      rcases hs with h | h <;> simp at * <;> omega
  | case4 => intro s hs; simp [toSextets] at hs

theorem fromSextets_toSextets (b : Bytes) (hb : ValidBytes b) :
    fromSextets (toSextets b) = b := by
  induction b using toSextets.induct with
  | case1 a x c rest ih =>
      have ha := hb a (by simp)
      have hx := hb x (by simp)
      have hc := hb c (by simp)
      have ih' := ih (fun y hy => hb y (by simp [hy]))
      simp only [toSextets, fromSextets, ih', List.cons.injEq]
      refine ⟨by omega, by omega, by omega, trivial⟩
  | case2 a x =>
      have ha := hb a (by simp)
      have hx := hb x (by simp)
      simp only [toSextets, fromSextets, List.cons.injEq]
      refine ⟨by omega, by omega, trivial⟩
  | case3 a =>
      have ha := hb a (by simp)
      simp only [toSextets, fromSextets, List.cons.injEq]
      refine ⟨by omega, trivial⟩
  | case4 => rfl

theorem base64CharIndex_url_round : ∀ i, i < 64 →
    base64CharIndex (urlUnsafeChar (urlSafeChar (base64IndexChar i))) = some i := by
  decide

theorem urlSafeChar_base64IndexChar_ne : ∀ i, i < 64 →
    urlSafeChar (base64IndexChar i) ≠ 43 ∧ urlSafeChar (base64IndexChar i) ≠ 47 ∧
    urlSafeChar (base64IndexChar i) ≠ 61 ∧ urlSafeChar (base64IndexChar i) ≠ 46 := by
  decide

theorem dropWhile61_replicate (k : Nat) (t : Str) :
    List.dropWhile (· = 61) (List.replicate k 61 ++ t) = List.dropWhile (· = 61) t := by
  induction k with
  | zero => simp
  | succ n ih => simpa [List.replicate_succ] using ih

theorem dropTrailingEq_append (xs : Str) (k : Nat) (h : ∀ c ∈ xs, c ≠ 61) :
    dropTrailingEq (xs ++ List.replicate k 61) = xs := by
  unfold dropTrailingEq
  rw [List.reverse_append, List.reverse_replicate, dropWhile61_replicate]
  rcases hr : xs.reverse with _ | ⟨c, t⟩
  · simpa using congrArg List.reverse hr.symm
  · have hc : c ∈ xs := by
      have : c ∈ xs.reverse := by rw [hr]; simp
      simpa using this
    rw [List.dropWhile_cons, if_neg (by simp [h c hc])]
    exact ((congrArg List.reverse hr).symm).trans (List.reverse_reverse xs)

theorem base64UrlEncode_eq (b : Bytes) (hb : ValidBytes b) :
    base64UrlEncode b = (toSextets b).map (fun i => urlSafeChar (base64IndexChar i)) := by
  unfold base64UrlEncode base64Encode
  rw [List.map_append, List.map_map]
  have hrep : (List.replicate (base64PadLen b.length) 61).map urlSafeChar
      = List.replicate (base64PadLen b.length) 61 := by
    simp [urlSafeChar]
  have hside : ∀ c ∈ (toSextets b).map (urlSafeChar ∘ base64IndexChar), c ≠ 61 := by
    intro c hc
    rcases List.mem_map.mp hc with ⟨i, hi, rfl⟩
    exact (urlSafeChar_base64IndexChar_ne i (toSextets_lt b hb i hi)).2.2.1
  rw [hrep, dropTrailingEq_append _ _ hside]
  rfl

theorem filterMap_url_round (l : List Nat) (hl : ∀ i ∈ l, i < 64) :
    (l.map (fun i => urlUnsafeChar (urlSafeChar (base64IndexChar i)))).filterMap
      base64CharIndex = l := by
  induction l with
  | nil => rfl
  | cons i t ih =>
      have hi := hl i (by simp)
      simp only [List.map_cons, List.filterMap_cons, base64CharIndex_url_round i hi]
      rw [ih (fun j hj => hl j (by simp [hj]))]

theorem base64CharIndex_61 : base64CharIndex 61 = none := by decide

/-- Decoding inverts url-safe encoding on genuine byte lists. -/
theorem base64UrlDecode_encode (b : Bytes) (hb : ValidBytes b) :
    base64UrlDecode (base64UrlEncode b) = b := by
  rw [base64UrlEncode_eq b hb]
  simp only [base64UrlDecode, base64Decode]
  rw [List.filterMap_append, List.map_map]
  have hpad : ∀ k : Nat, (List.replicate k 61).filterMap base64CharIndex = [] := by
    intro k
    induction k with
    | zero => rfl
    | succ n ih => simpa [List.replicate_succ, List.filterMap_cons, base64CharIndex_61]
        using ih
  have hcomp : (toSextets b).map (urlUnsafeChar ∘ fun i => urlSafeChar (base64IndexChar i))
      = (toSextets b).map (fun i => urlUnsafeChar (urlSafeChar (base64IndexChar i))) := rfl
  rw [hpad, List.append_nil, hcomp, filterMap_url_round _ (toSextets_lt b hb)]
  exact fromSextets_toSextets b hb

/-- No character of a url-safe encoding is a dot, so tokens split cleanly. -/
theorem base64UrlEncode_ne_dot (b : Bytes) (hb : ValidBytes b) :
    ∀ c ∈ base64UrlEncode b, c ≠ 46 := by
  rw [base64UrlEncode_eq b hb]
  intro c hc
  rcases List.mem_map.mp hc with ⟨i, hi, rfl⟩
  exact (urlSafeChar_base64IndexChar_ne i (toSextets_lt b hb i hi)).2.2.2

/- ## Decimal rendering, hex, case folding, trimming -/

/-- Decimal digits of a natural number (`String(n)` for `n ≥ 0`). -/
def natDigitChars (n : Nat) : Str :=
  if n < 10 then [48 + n]
  else natDigitChars (n / 10) ++ [48 + n % 10]
decreasing_by exact Nat.div_lt_self (by omega) (by omega)

/-- `String(x)` for an integer-valued JavaScript number. -/
def intToStr : Int → Str
  | Int.ofNat n => natDigitChars n
  | Int.negSucc n => 45 :: natDigitChars (n + 1)

def isDigitCode (c : Nat) : Bool := 48 ≤ c && c ≤ 57

/-- Fold decimal digit characters into a natural number. -/
def digitsToNat (ds : Str) : Nat := ds.foldl (fun acc c => acc * 10 + (c - 48)) 0

theorem natDigitChars_digits (n : Nat) :
    ∀ c ∈ natDigitChars n, isDigitCode c = true := by
  induction n using natDigitChars.induct with
  | case1 n h =>
      intro c hc
      rw [natDigitChars, if_pos h] at hc
      simp only [List.mem_singleton] at hc
      subst hc
      simp [isDigitCode]
      omega
  | case2 n h ih =>
      intro c hc
      rw [natDigitChars, if_neg h] at hc
      rcases List.mem_append.mp hc with h1 | h1
      · exact ih c h1
      · simp only [List.mem_singleton] at h1
        subst h1
        simp [isDigitCode]
        omega

theorem foldl_natDigitChars (n : Nat) : ∀ acc : Nat,
    (natDigitChars n).foldl (fun a c => a * 10 + (c - 48)) acc
      = acc * 10 ^ (natDigitChars n).length + n := by
  induction n using natDigitChars.induct with
  | case1 n h =>
      intro acc
      rw [natDigitChars, if_pos h]
      show acc * 10 + (48 + n - 48) = acc * 10 ^ 1 + n
      rw [pow_one]
      omega
  | case2 n h ih =>
      intro acc
      rw [natDigitChars, if_neg h]
      rw [List.foldl_append, ih acc]
      simp only [List.foldl_cons, List.foldl_nil, List.length_append,
        List.length_singleton]
      have hd : 48 + n % 10 - 48 = n % 10 := by omega
      rw [hd, pow_succ]
      have hsplit : (acc * 10 ^ (natDigitChars (n / 10)).length + n / 10) * 10 + n % 10
          = acc * (10 ^ (natDigitChars (n / 10)).length * 10) + (n / 10 * 10 + n % 10) := by
        ring
      rw [hsplit]
      congr 1
      omega

theorem digitsToNat_natDigitChars (n : Nat) : digitsToNat (natDigitChars n) = n := by
  have := foldl_natDigitChars n 0
  simpa [digitsToNat] using this

/-- Lowercase hex digit for a value below 16. -/
def hexDigitChar (n : Nat) : Nat := if n < 10 then 48 + n else 87 + n

/-- `Buffer.digest('hex')`: lowercase hexadecimal rendering of bytes. -/
def bytesToHex (b : Bytes) : Str :=
  b.foldr (fun x acc => hexDigitChar (x / 16) :: hexDigitChar (x % 16) :: acc) []

/-- Hex digit value, accepting both letter cases. -/
def hexVal (c : Nat) : Option Nat :=
  if 48 ≤ c ∧ c ≤ 57 then some (c - 48)
  else if 97 ≤ c ∧ c ≤ 102 then some (c - 87)
  else if 65 ≤ c ∧ c ≤ 70 then some (c - 55)
  else none

/-- `Buffer.from(str, 'hex')`: parse hex pairs, stopping at the first
character that is not a hex digit; a dangling odd character is dropped. -/
def hexToBytes : Str → Bytes
  | c1 :: c2 :: rest =>
      match hexVal c1, hexVal c2 with
      | some h, some l => (h * 16 + l) :: hexToBytes rest
      | _, _ => []
  | _ => []

theorem hexVal_hexDigitChar : ∀ v, v < 16 → hexVal (hexDigitChar v) = some v := by
  decide

theorem hexToBytes_bytesToHex (b : Bytes) (hb : ValidBytes b) :
    hexToBytes (bytesToHex b) = b := by
  induction b with
  | nil => rfl
  | cons x t ih =>
      have hx := hb x (by simp)
      have h1 : x / 16 < 16 := by omega
      have h2 : x % 16 < 16 := by omega
      simp only [bytesToHex, List.foldr_cons] at *
      simp only [hexToBytes, hexVal_hexDigitChar _ h1, hexVal_hexDigitChar _ h2]
      rw [ih (fun y hy => hb y (by simp [hy]))]
      congr 1
      omega

/-- `toLowerCase` on a single ASCII character code. -/
def toLowerChar (c : Nat) : Nat := if 65 ≤ c ∧ c ≤ 90 then c + 32 else c

/-- `String.prototype.toLowerCase` (ASCII model). -/
def toLowerCase (s : Str) : Str := s.map toLowerChar

theorem toLowerCase_bytesToHex (b : Bytes) (hb : ValidBytes b) :
    toLowerCase (bytesToHex b) = bytesToHex b := by
  induction b with
  | nil => rfl
  | cons x t ih =>
      have hx := hb x (by simp)
      have h1 : x / 16 < 16 := by omega
      have h2 : x % 16 < 16 := by omega
      have hfix : ∀ v, v < 16 → toLowerChar (hexDigitChar v) = hexDigitChar v := by decide
      simp only [bytesToHex, List.foldr_cons, toLowerCase, List.map_cons] at *
      rw [hfix _ h1, hfix _ h2, ih (fun y hy => hb y (by simp [hy]))]

/-- JavaScript whitespace (ASCII model: tab through carriage return, space). -/
def isJsSpace (c : Nat) : Bool := (9 ≤ c && c ≤ 13) || c == 32

/-- `String.prototype.trim`. -/
def jsTrim (s : Str) : Str :=
  ((s.dropWhile isJsSpace).reverse.dropWhile isJsSpace).reverse

/- ## Byte comparison primitives -/

/-- `crypto.timingSafeEqual` / the worker's `timingSafeEqualBytes`: a
fixed-length xor-accumulating comparison over the whole buffer. -/
def timingSafeEqualBytes (left right : Bytes) : Bool :=
  if left.length ≠ right.length then false
  else ((List.zipWith (fun a b => a ^^^ b) left right).foldl (fun acc d => acc ||| d) 0) == 0

/-- Number of byte operations `timingSafeEqualBytes` performs: determined
by the lengths alone, never by the contents. -/
def timingSafeEqualSteps (left right : Bytes) : Nat :=
  if left.length ≠ right.length then 0 else left.length

/-- Number of character comparisons a short-circuiting string equality
scan performs: it stops at the first mismatch, so the count depends on
the contents. -/
def eqScanSteps : Str → Str → Nat
  | a :: as, b :: bs => if a = b then 1 + eqScanSteps as bs else 1
  | _, _ => 0

/-- `safeStringCompare` (the assertion verifier's comparison): decode
both sides as hex, fail on a length mismatch, else compare in constant
time. -/
def safeStringCompare (left right : Str) : Bool :=
  let leftBuffer := hexToBytes left
  let rightBuffer := hexToBytes right
  if leftBuffer.length ≠ rightBuffer.length then false
  else timingSafeEqualBytes leftBuffer rightBuffer

theorem timingSafeEqualBytes_self (b : Bytes) : timingSafeEqualBytes b b = true := by
  unfold timingSafeEqualBytes
  rw [if_neg (by simp)]
  have hz : List.zipWith (fun a b => a ^^^ b) b b = List.replicate b.length 0 := by
    induction b with
    | nil => rfl
    | cons x t ih => simp [List.zipWith_cons_cons, ih, List.replicate_succ]
  rw [hz]
  have hfold : ∀ k, (List.replicate k 0).foldl (fun acc d => acc ||| d) 0 = 0 := by
    intro k
    induction k with
    | zero => rfl
    | succ n ih => simpa [List.replicate_succ] using ih
  rw [hfold]
  rfl

/- ## JSON

The tokens carry flat JSON objects whose values are strings, numbers,
booleans or null.  `printJObj` models `JSON.stringify` on such objects
(insertion order, `undefined` fields simply not inserted); `parseJson`
models the platform `JSON.parse` on this fragment, returning `none`
where `JSON.parse` would throw (the codec catches that throw and fails).
Nested arrays/objects are not modelled; on them `parseJson` is `none`,
which the codec cannot distinguish from the type-check failures that
would reject such payloads anyway. -/

/-- A flat JSON value. -/
inductive JVal where
  | str (s : Str)
  | num (n : Int)
  | bool (b : Bool)
  | nul
deriving DecidableEq

/-- A flat JSON object: fields in insertion order. -/
abbrev JObj := List (Str × JVal)

/-- `JSON.stringify` escaping of one character. -/
def jsonEscapeChar (c : Nat) : Str :=
  if c = 34 then [92, 34]
  else if c = 92 then [92, 92]
  else if c = 8 then [92, 98]
  else if c = 9 then [92, 116]
  else if c = 10 then [92, 110]
  else if c = 12 then [92, 102]
  else if c = 13 then [92, 114]
  else if c < 32 then [92, 117, 48, 48, hexDigitChar (c / 16), hexDigitChar (c % 16)]
  else [c]

def jsonEscape (s : Str) : Str := s.foldr (fun c acc => jsonEscapeChar c ++ acc) []

/-- A JSON string literal: quote, escaped body, quote. -/
def printStrLit (s : Str) : Str := 34 :: jsonEscape s ++ [34]

def printJVal : JVal → Str
  | .str s => printStrLit s
  | .num n => intToStr n
  | .bool true => strLit "true"
  | .bool false => strLit "false"
  | .nul => strLit "null"

def printJObjFields : JObj → Str
  | [] => []
  | [(k, v)] => printStrLit k ++ 58 :: printJVal v
  | (k, v) :: rest => printStrLit k ++ 58 :: printJVal v ++ 44 :: printJObjFields rest

/-- `JSON.stringify` of a flat object. -/
def printJObj (fs : JObj) : Str := 123 :: printJObjFields fs ++ [125]

/-- Value of a single-character JSON escape (`\"`, `\\`, `\/`, `\b`,
`\f`, `\n`, `\r`, `\t`). -/
def unescapeChar (e : Nat) : Option Nat :=
  if e = 34 then some 34
  else if e = 92 then some 92
  else if e = 47 then some 47
  else if e = 98 then some 8
  else if e = 102 then some 12
  else if e = 110 then some 10
  else if e = 114 then some 13
  else if e = 116 then some 9
  else none

/-- Parse the body of a JSON string literal (after the opening quote),
returning the unescaped content and the input after the closing quote. -/
def parseStrBody : Str → Option (Str × Str)
  | [] => none
  | c :: rest =>
      if c = 34 then some ([], rest)
      else if c = 92 then
        match rest with
        | [] => none
        | e :: rest2 =>
            if e = 117 then
              match rest2 with
              | h1 :: h2 :: h3 :: h4 :: rest3 =>
                  match hexVal h1, hexVal h2, hexVal h3, hexVal h4 with
                  | some a, some b, some c2, some d =>
                      (parseStrBody rest3).map
                        (fun p => ((a * 4096 + b * 256 + c2 * 16 + d) :: p.1, p.2))
                  | _, _, _, _ => none
              | _ => none
            else
              match unescapeChar e with
              | some u => (parseStrBody rest2).map (fun p => (u :: p.1, p.2))
              | none => none
      else (parseStrBody rest).map (fun p => (c :: p.1, p.2))

/-- Parse a decimal natural number (nonempty digit run). -/
def parseNatNum (s : Str) : Option (Nat × Str) :=
  let ds := s.takeWhile isDigitCode
  if ds.isEmpty then none else some (digitsToNat ds, s.dropWhile isDigitCode)

/-- Parse an (integer) JSON number, with optional leading minus. -/
def parseNumber (s : Str) : Option (Int × Str) :=
  match s with
  | [] => none
  | c :: rest =>
      if c = 45 then (parseNatNum rest).map (fun p => (-(p.1 : Int), p.2))
      else (parseNatNum (c :: rest)).map (fun p => ((p.1 : Int), p.2))

/-- Parse one flat JSON value. -/
def parseJVal (s : Str) : Option (JVal × Str) :=
  match s with
  | [] => none
  | c :: rest =>
      if c = 34 then (parseStrBody rest).map (fun p => (JVal.str p.1, p.2))
      else if s.take 4 = strLit "true" then some (.bool true, s.drop 4)
      else if s.take 5 = strLit "false" then some (.bool false, s.drop 5)
      else if s.take 4 = strLit "null" then some (.nul, s.drop 4)
      else (parseNumber s).map (fun p => (JVal.num p.1, p.2))

/-- Parse `"key":value` fields separated by commas, up to the closing
brace; the fuel bounds the number of fields. -/
def parseFieldsAux : Nat → Str → Option (JObj × Str)
  | 0, _ => none
  | fuel + 1, s =>
      match s with
      | [] => none
      | c :: rest =>
          if c = 34 then
            match parseStrBody rest with
            | none => none
            | some (k, r1) =>
                match r1 with
                | [] => none
                | c2 :: r2 =>
                    if c2 = 58 then
                      match parseJVal r2 with
                      | none => none
                      | some (v, r3) =>
                          match r3 with
                          | [] => none
                          | c3 :: r4 =>
                              if c3 = 44 then
                                (parseFieldsAux fuel r4).map
                                  (fun p => ((k, v) :: p.1, p.2))
                              else if c3 = 125 then some ([(k, v)], r4)
                              else none
                    else none
          else none

/-- `JSON.parse`, modelled on the flat-object fragment; `none` stands
for the exception the codec catches. -/
def parseJson (s : Str) : Option JObj :=
  match s with
  | [] => none
  | c :: rest =>
      if c = 123 then
        if rest = [125] then some []
        else
          match parseFieldsAux (rest.length + 1) rest with
          | none => none
          | some (fs, r) => if r = [] then some fs else none
      else none

/-- Property access on a parsed JSON object (`obj.key`); later duplicate
keys win, as in `JSON.parse`. -/
def jLookup (o : JObj) (k : Str) : Option JVal :=
  (o.reverse.find? (fun p => decide (p.1 = k))).map Prod.snd

/- ### Parsing inverts printing on the emitted fragment -/

theorem parseStrBody_escapeChar (c : Nat) (t : Str) :
    parseStrBody (jsonEscapeChar c ++ t)
      = (parseStrBody t).map (fun p => (c :: p.1, p.2)) := by
  unfold jsonEscapeChar
  split_ifs with h1 h2 h3 h4 h5 h6 h7 h8
  · subst h1; rw [parseStrBody.eq_def]; simp [unescapeChar]
  · subst h2; rw [parseStrBody.eq_def]; simp [unescapeChar]
  · subst h3; rw [parseStrBody.eq_def]; simp [unescapeChar]
  · subst h4; rw [parseStrBody.eq_def]; simp [unescapeChar]
  · subst h5; rw [parseStrBody.eq_def]; simp [unescapeChar]
  · subst h6; rw [parseStrBody.eq_def]; simp [unescapeChar]
  · subst h7; rw [parseStrBody.eq_def]; simp [unescapeChar]
  · have hv1 : c / 16 < 16 := by omega
    have hv2 : c % 16 < 16 := by omega
    have hc : c / 16 * 16 + c % 16 = c := by omega
    have h48 : hexVal 48 = some 0 := rfl
    rw [parseStrBody.eq_def]
    simp [hexVal_hexDigitChar _ hv1, hexVal_hexDigitChar _ hv2, h48, hc]
  · rw [parseStrBody.eq_def]; simp [h1, h2]

theorem parseStrBody_escape (s : Str) : ∀ rest : Str,
    parseStrBody (jsonEscape s ++ 34 :: rest) = some (s, rest) := by
  induction s with
  | nil =>
      intro rest
      show parseStrBody (34 :: rest) = some ([], rest)
      rw [parseStrBody.eq_def]
      simp
  | cons c t ih =>
      intro rest
      have hstep : jsonEscape (c :: t) = jsonEscapeChar c ++ jsonEscape t := rfl
      rw [hstep, List.append_assoc, parseStrBody_escapeChar, ih rest]
      rfl

theorem takeWhile_all_append (p : Nat → Bool) (xs ys : Str) (h : ∀ x ∈ xs, p x = true) :
    (xs ++ ys).takeWhile p = xs ++ ys.takeWhile p := by
  induction xs with
  | nil => simp
  | cons a t ih =>
      rw [List.cons_append, List.takeWhile_cons, h a (by simp), if_pos rfl,
          ih (fun x hx => h x (by simp [hx])), List.cons_append]

theorem dropWhile_all_append (p : Nat → Bool) (xs ys : Str) (h : ∀ x ∈ xs, p x = true) :
    (xs ++ ys).dropWhile p = ys.dropWhile p := by
  induction xs with
  | nil => simp
  | cons a t ih =>
      rw [List.cons_append, List.dropWhile_cons, h a (by simp)]
      exact ih (fun x hx => h x (by simp [hx]))

theorem takeWhile_eq_nil_of_head (p : Nat → Bool) (ys : Str)
    (h : ∀ y, ys.head? = some y → p y = false) : ys.takeWhile p = [] := by
  cases ys with
  | nil => rfl
  | cons a t => rw [List.takeWhile_cons, h a rfl]; rfl

theorem dropWhile_eq_self_of_head (p : Nat → Bool) (ys : Str)
    (h : ∀ y, ys.head? = some y → p y = false) : ys.dropWhile p = ys := by
  cases ys with
  | nil => rfl
  | cons a t => rw [List.dropWhile_cons, h a rfl]; rfl

theorem natDigitChars_ne_nil (n : Nat) : natDigitChars n ≠ [] := by
  unfold natDigitChars
  split_ifs <;> simp

theorem parseNatNum_digits (n : Nat) (rest : Str)
    (h : ∀ y, rest.head? = some y → isDigitCode y = false) :
    parseNatNum (natDigitChars n ++ rest) = some (n, rest) := by
  unfold parseNatNum
  rw [takeWhile_all_append _ _ _ (natDigitChars_digits n),
      takeWhile_eq_nil_of_head _ _ h, List.append_nil,
      dropWhile_all_append _ _ _ (natDigitChars_digits n),
      dropWhile_eq_self_of_head _ _ h,
      if_neg (by simpa using natDigitChars_ne_nil n),
      digitsToNat_natDigitChars]

theorem intToStr_head (n : Int) :
    ∃ d ds, intToStr n = d :: ds ∧ (d = 45 ∨ (48 ≤ d ∧ d ≤ 57)) := by
  cases n with
  | ofNat m =>
      rcases hm : natDigitChars m with _ | ⟨d, ds⟩
      · exact absurd hm (natDigitChars_ne_nil m)
      · refine ⟨d, ds, hm, Or.inr ?_⟩
        have := natDigitChars_digits m d (by rw [hm]; simp)
        simpa [isDigitCode] using this
  | negSucc m => exact ⟨45, natDigitChars (m + 1), rfl, Or.inl rfl⟩

theorem parseNumber_intToStr (n : Int) (rest : Str)
    (h : ∀ y, rest.head? = some y → isDigitCode y = false) :
    parseNumber (intToStr n ++ rest) = some (n, rest) := by
  cases n with
  | ofNat m =>
      rcases hm : natDigitChars m with _ | ⟨d, ds⟩
      · exact absurd hm (natDigitChars_ne_nil m)
      · have hd : 48 ≤ d ∧ d ≤ 57 := by
          have := natDigitChars_digits m d (by rw [hm]; simp)
          simpa [isDigitCode] using this
        show parseNumber (natDigitChars m ++ rest) = some ((m : Int), rest)
        rw [hm, List.cons_append, parseNumber.eq_def]
        simp only [if_neg (show ¬d = 45 by omega)]
        rw [← List.cons_append, ← hm, parseNatNum_digits m rest h]
        rfl
  | negSucc m =>
      show parseNumber (45 :: (natDigitChars (m + 1) ++ rest)) = _
      rw [parseNumber.eq_def]
      simp only [if_pos rfl]
      rw [parseNatNum_digits (m + 1) rest h]
      show some (-((m : Int) + 1), rest) = some (Int.negSucc m, rest)
      rw [Int.negSucc_eq]

theorem take_ne_of_head_ne (x : Nat) (t : Str) (n : Nat) (b : Str) (y : Nat)
    (hb : b.head? = some y) (hxy : x ≠ y) : (x :: t).take n ≠ b := by
  cases n with
  | zero =>
      cases b with
      | nil => simp at hb
      | cons z u => simp [List.take]
  | succ k =>
      cases b with
      | nil => simp at hb
      | cons z u =>
          simp only [List.head?] at hb
          rw [List.take_succ_cons]
          simp only [ne_eq, List.cons.injEq, not_and]
          intro hx
          exact absurd (Option.some.inj hb ▸ hx) hxy

theorem parseJVal_print (v : JVal) (rest : Str)
    (hdig : ∀ y, rest.head? = some y → isDigitCode y = false) :
    parseJVal (printJVal v ++ rest) = some (v, rest) := by
  cases v with
  | str s =>
      show parseJVal (34 :: ((jsonEscape s ++ [34]) ++ rest)) = _
      rw [parseJVal.eq_def]
      simp only [if_pos rfl]
      rw [List.append_assoc, List.singleton_append, parseStrBody_escape]
      rfl
  | num n =>
      obtain ⟨d, ds, hn, hd⟩ := intToStr_head n
      show parseJVal (intToStr n ++ rest) = _
      rw [hn, List.cons_append]
      have h34 : ¬ d = 34 := by omega
      have ht : (d :: (ds ++ rest)).take 4 ≠ strLit "true" :=
        take_ne_of_head_ne d _ _ _ 116 rfl (by omega)
      have hf : (d :: (ds ++ rest)).take 5 ≠ strLit "false" :=
        take_ne_of_head_ne d _ _ _ 102 rfl (by omega)
      have hnl : (d :: (ds ++ rest)).take 4 ≠ strLit "null" :=
        take_ne_of_head_ne d _ _ _ 110 rfl (by omega)
      rw [parseJVal.eq_def]
      simp only [h34, ht, hf, hnl, if_false, ite_false, if_neg]
      rw [← List.cons_append, ← hn, parseNumber_intToStr n rest hdig]
      rfl
  | bool b =>
      cases b with
      | true =>
          show parseJVal (116 :: ([114, 117, 101] ++ rest)) = _
          rw [parseJVal.eq_def]
          simp [strLit]
      | false =>
          show parseJVal (102 :: ([97, 108, 115, 101] ++ rest)) = _
          rw [parseJVal.eq_def]
          simp [strLit]
  | nul =>
      show parseJVal (110 :: ([117, 108, 108] ++ rest)) = _
      rw [parseJVal.eq_def]
      simp [strLit]

theorem head_cons_nondigit (c : Nat) (r : Str) (hc : isDigitCode c = false) :
    ∀ y, (c :: r).head? = some y → isDigitCode y = false := by
  intro y hy
  rw [List.head?_cons] at hy
  rwa [← Option.some.inj hy]

theorem parseFieldsAux_step (fuel : Nat) (k : Str) (body r2 : Str) (v : JVal) (r3 : Str)
    (hk : parseStrBody body = some (k, 58 :: r2))
    (hv : parseJVal r2 = some (v, r3)) :
    parseFieldsAux (fuel + 1) (34 :: body)
      = match r3 with
        | [] => none
        | c3 :: r4 =>
            if c3 = 44 then (parseFieldsAux fuel r4).map (fun p => ((k, v) :: p.1, p.2))
            else if c3 = 125 then some ([(k, v)], r4)
            else none := by
  rw [parseFieldsAux.eq_def]
  simp [hk, hv]
  cases r3 with
  | nil => rfl
  | cons c3 r4 => rfl

theorem printJObjFields_length (fs : JObj) : fs.length ≤ (printJObjFields fs).length := by
  induction fs with
  | nil => simp [printJObjFields]
  | cons kv t ih =>
      obtain ⟨k, v⟩ := kv
      cases t with
      | nil => simp [printJObjFields, printStrLit]
      | cons kv2 t2 =>
          simp only [printJObjFields, printStrLit, List.length_cons, List.length_append] at ih ⊢
          omega

theorem parseFieldsAux_print (fs : JObj) : ∀ (fuel : Nat) (rest : Str),
    fs ≠ [] → fs.length ≤ fuel →
    parseFieldsAux fuel (printJObjFields fs ++ 125 :: rest) = some (fs, rest) := by
  induction fs with
  | nil => intro fuel rest h _; exact absurd rfl h
  | cons kv t ih =>
      obtain ⟨k, v⟩ := kv
      intro fuel rest hne hfuel
      cases fuel with
      | zero => simp at hfuel
      | succ fuel =>
          cases t with
          | nil =>
              have hshape : printJObjFields [(k, v)] ++ 125 :: rest
                  = 34 :: (jsonEscape k ++ 34 :: (58 :: (printJVal v ++ 125 :: rest))) := by
                simp [printJObjFields, printStrLit]
              rw [hshape,
                  parseFieldsAux_step fuel k _ _ v (125 :: rest)
                    (parseStrBody_escape k _)
                    (parseJVal_print v (125 :: rest) (head_cons_nondigit 125 rest rfl))]
              simp
          | cons kv2 t2 =>
              have hshape : printJObjFields ((k, v) :: kv2 :: t2) ++ 125 :: rest
                  = 34 :: (jsonEscape k ++ 34 :: (58 :: (printJVal v
                      ++ 44 :: (printJObjFields (kv2 :: t2) ++ 125 :: rest)))) := by
                simp [printJObjFields, printStrLit]
              rw [hshape,
                  parseFieldsAux_step fuel k _ _ v
                    (44 :: (printJObjFields (kv2 :: t2) ++ 125 :: rest))
                    (parseStrBody_escape k _)
                    (parseJVal_print v _ (head_cons_nondigit 44 _ rfl))]
              have hrec := ih fuel rest (by simp)
                (by simp only [List.length_cons] at hfuel ⊢; omega)
              simp [hrec]

theorem printJObjFields_head (fs : JObj) (hne : fs ≠ []) :
    (printJObjFields fs).head? = some 34 := by
  cases fs with
  | nil => exact absurd rfl hne
  | cons kv t =>
      obtain ⟨k, v⟩ := kv
      cases t with
      | nil => rfl
      | cons kv2 t2 => rfl

/-- `JSON.parse` inverts `JSON.stringify` on nonempty flat objects. -/
theorem parseJson_print (fs : JObj) (hne : fs ≠ []) :
    parseJson (printJObj fs) = some fs := by
  show parseJson (123 :: (printJObjFields fs ++ [125])) = some fs
  rw [parseJson.eq_def]
  have hne2 : ¬ (printJObjFields fs ++ [125] = [125]) := by
    intro hcontra
    have h34 := printJObjFields_head fs hne
    rcases hfs : printJObjFields fs with _ | ⟨c, r⟩
    · rw [hfs] at h34
      simp at h34
    · rw [hfs] at hcontra
      have := congrArg List.length hcontra
      simp at this
  have hfields : parseFieldsAux ((printJObjFields fs).length + 1 + 1)
      (printJObjFields fs ++ [125]) = some (fs, []) := by
    apply parseFieldsAux_print fs _ [] hne
    have := printJObjFields_length fs
    omega
  simp [hne2, hfields]

/- ## The auth core (server/src/auth.ts, mirrored in the worker) -/

/-- The trusted post-verification projection of an assertion. -/
structure AuthUser where
  id : Str
  firstName : Str
  lastName : Option Str
  username : Option Str
  photoUrl : Option Str
  authDate : Int
deriving DecidableEq

/-- The untrusted login-widget assertion. -/
structure TelegramAuthPayload where
  id : Str
  first_name : Str
  last_name : Option Str
  username : Option Str
  photo_url : Option Str
  auth_date : Int
  hash : Str
deriving DecidableEq

/-- The platform cryptographic primitives (`node:crypto` / WebCrypto),
abstract byte functions whose outputs are genuine bytes. -/
structure Crypto where
  sha256 : Bytes → Bytes
  hmacSha256 : Bytes → Bytes → Bytes
  sha256_valid : ∀ b, ValidBytes (sha256 b)
  hmacSha256_valid : ∀ k d, ValidBytes (hmacSha256 k d)

/-- A concrete instantiation of the primitives, for evaluating the
development on closed inputs. -/
def constCrypto : Crypto where
  sha256 := fun _ => List.replicate 32 0
  hmacSha256 := fun _ _ => List.replicate 32 0
  sha256_valid := by
    intro b x hx
    rw [List.eq_of_mem_replicate hx]
    omega
  hmacSha256_valid := by
    intro k d x hx
    rw [List.eq_of_mem_replicate hx]
    omega

def telegramAuthMaxAgeSeconds : Int := 24 * 60 * 60

def tokenLifetimeSeconds : Int := 30 * 24 * 60 * 60

/-- The fixed token header `{alg: 'HS256', typ: 'JWT'}`. -/
def jwtHeader : JObj :=
  [(strLit "alg", JVal.str (strLit "HS256")), (strLit "typ", JVal.str (strLit "JWT"))]

/-- `signHmac(data, secret)`: HMAC-SHA256 with the secret as key. -/
def signHmac (c : Crypto) (data secret : Str) : Bytes := c.hmacSha256 secret data

/-- JavaScript truthiness of an optional string field (`undefined` and
`''` are falsy). -/
def truthyStr : Option Str → Bool
  | some s => !s.isEmpty
  | none => false

/-- One optional entry of the data-check field map: inserted only when
the field is truthy. -/
def optField (k : Str) (v : Option Str) : List (Str × Str) :=
  match v with
  | some s => if s.isEmpty then [] else [(k, s)]
  | none => []

/-- Lexicographic strict comparison of strings by character code (what
`localeCompare` computes on the ASCII field keys involved). -/
def strLe (a b : Str) : Bool :=
  match a, b with
  | [], _ => true
  | _ :: _, [] => false
  | x :: xs, y :: ys => if x < y then true else if y < x then false else strLe xs ys

def insertField (p : Str × Str) : List (Str × Str) → List (Str × Str)
  | [] => [p]
  | q :: t => if strLe p.1 q.1 then p :: q :: t else q :: insertField p t

/-- `Array.prototype.sort` with the key comparator (insertion sort; the
keys are pairwise distinct, so any comparison sort gives this order). -/
def sortFields : List (Str × Str) → List (Str × Str)
  | [] => []
  | p :: t => insertField p (sortFields t)

/-- `join('\n')`. -/
def joinNl : List Str → Str
  | [] => []
  | [l] => l
  | l :: t => l ++ 10 :: joinNl t

/-- `getTelegramDataCheckString`: required fields plus truthy optional
fields, sorted by key, rendered as `key=value` lines. -/
def getTelegramDataCheckString (p : TelegramAuthPayload) : Str :=
  let fields : List (Str × Str) :=
    [(strLit "id", p.id), (strLit "auth_date", intToStr p.auth_date),
     (strLit "first_name", p.first_name)]
    ++ optField (strLit "last_name") p.last_name
    ++ optField (strLit "username") p.username
    ++ optField (strLit "photo_url") p.photo_url
  joinNl ((sortFields fields).map (fun q => q.1 ++ 61 :: q.2))

/-- `verifyTelegramAuthPayload`; `now` is `Math.floor(Date.now() / 1000)`. -/
def verifyTelegramAuthPayload (c : Crypto) (payload : TelegramAuthPayload)
    (botToken : Str) (now : Int) : Option AuthUser :=
  if payload.auth_date > now + 60 ∨ now - payload.auth_date > telegramAuthMaxAgeSeconds then
    none
  else
    let dataCheckString := getTelegramDataCheckString payload
    let secretKey := c.sha256 botToken
    let computedHash := bytesToHex (c.hmacSha256 secretKey dataCheckString)
    if ¬ (safeStringCompare computedHash (toLowerCase payload.hash) = true) then none
    else
      some { id := payload.id, firstName := payload.first_name,
             lastName := payload.last_name, username := payload.username,
             photoUrl := payload.photo_url, authDate := payload.auth_date }

/-- One optional profile field of the token payload object:
`JSON.stringify` keeps present fields (empty strings included) and drops
`undefined` ones. -/
def optJField (k : Str) (v : Option Str) : JObj :=
  match v with
  | some s => [(k, JVal.str s)]
  | none => []

/-- The payload object `issueAuthToken` serialises, in insertion order. -/
def tokenPayloadObj (user : AuthUser) (iat exp : Int) : JObj :=
  [(strLit "sub", JVal.str user.id), (strLit "firstName", JVal.str user.firstName)]
  ++ optJField (strLit "lastName") user.lastName
  ++ optJField (strLit "username") user.username
  ++ optJField (strLit "photoUrl") user.photoUrl
  ++ [(strLit "authDate", JVal.num user.authDate), (strLit "iat", JVal.num iat),
      (strLit "exp", JVal.num exp)]

/-- `issueAuthToken`; `now` is the clock reading used for `iat`. -/
def issueAuthToken (c : Crypto) (user : AuthUser) (secret : Str) (now : Int) : Str :=
  let iat := now
  let exp := iat + tokenLifetimeSeconds
  let encodedHeader := base64UrlEncode (printJObj jwtHeader)
  let encodedPayload := base64UrlEncode (printJObj (tokenPayloadObj user iat exp))
  let data := encodedHeader ++ 46 :: encodedPayload
  let signature := base64UrlEncode (signHmac c data secret)
  data ++ 46 :: signature

/-- `token.split('.')` (46 is the dot). -/
def splitOnDot : Str → List Str
  | [] => [[]]
  | c :: rest =>
      if c = 46 then [] :: splitOnDot rest
      else
        match splitOnDot rest with
        | [] => [[c]]
        | h :: t => (c :: h) :: t

/-- The token verifier's signature comparison (`signature !==
expectedSignature`): ordinary JavaScript string equality. -/
def tokenSignatureCheck (signature expectedSignature : Str) : Bool :=
  signature == expectedSignature

/-- The projection the verifier applies to optional profile payload
fields (the source copies them through untyped; non-string JSON values
cannot inhabit `Option Str`, so the model maps them to `none` — no
claim observes that corner, since such a field is never emitted by the
issuer). -/
def asOptStr : Option JVal → Option Str
  | some (JVal.str s) => some s
  | _ => none

/-- `verifyAuthToken`; `now` is the clock reading for the expiry check. -/
def verifyAuthToken (c : Crypto) (token secret : Str) (now : Int) : Option AuthUser :=
  match splitOnDot token with
  | [encodedHeader, encodedPayload, signature] =>
      let data := encodedHeader ++ 46 :: encodedPayload
      let expectedSignature := base64UrlEncode (signHmac c data secret)
      if tokenSignatureCheck signature expectedSignature = false then none
      else
        match parseJson (base64UrlDecode encodedHeader) with
        | none => none
        | some decodedHeader =>
            if jLookup decodedHeader (strLit "alg") ≠ some (JVal.str (strLit "HS256")) ∨
               jLookup decodedHeader (strLit "typ") ≠ some (JVal.str (strLit "JWT")) then
              none
            else
              match parseJson (base64UrlDecode encodedPayload) with
              | none => none
              | some dp =>
                  match jLookup dp (strLit "sub"), jLookup dp (strLit "firstName") with
                  | some (JVal.str sub), some (JVal.str firstName) =>
                      match jLookup dp (strLit "exp") with
                      | some (JVal.num e) =>
                          if e ≤ now then none
                          else
                            some { id := sub, firstName := firstName,
                                   lastName := asOptStr (jLookup dp (strLit "lastName")),
                                   username := asOptStr (jLookup dp (strLit "username")),
                                   photoUrl := asOptStr (jLookup dp (strLit "photoUrl")),
                                   authDate :=
                                     match jLookup dp (strLit "authDate") with
                                     | some (JVal.num n) => n
                                     | _ => 0 }
                      | _ => none
                  | _, _ => none
  | _ => none

/-- The process environment variables the secret resolution reads. -/
structure Env where
  AUTH_SECRET : Option Str
  TELEGRAM_BOT_TOKEN : Option Str

def devAuthSecret : Str := strLit "unityprep-dev-auth-secret"

/-- `x?.trim() || y`: falls through on `undefined` and on strings that
trim to empty. -/
def orFalsyTrim (x : Option Str) (y : Str) : Str :=
  match x with
  | some s => if (jsTrim s).isEmpty then y else jsTrim s
  | none => y

/-- `resolveAuthSecret`. -/
def resolveAuthSecret (env : Env) : Str :=
  orFalsyTrim env.AUTH_SECRET (orFalsyTrim env.TELEGRAM_BOT_TOKEN devAuthSecret)

/- ## Token verification of well-formed constructed tokens -/

theorem splitOnDot_dotfree (a : Str) (h : ∀ ch ∈ a, ch ≠ 46) : splitOnDot a = [a] := by
  induction a with
  | nil => rfl
  | cons x t ih =>
      rw [splitOnDot.eq_def]
      simp only [if_neg (h x (by simp))]
      rw [ih (fun ch hch => h ch (by simp [hch]))]

theorem splitOnDot_append (a r : Str) (h : ∀ ch ∈ a, ch ≠ 46) :
    splitOnDot (a ++ 46 :: r) = a :: splitOnDot r := by
  induction a with
  | nil =>
      show splitOnDot (46 :: r) = [] :: splitOnDot r
      rw [splitOnDot.eq_def]
      simp
  | cons x t ih =>
      show splitOnDot (x :: (t ++ 46 :: r)) = (x :: t) :: splitOnDot r
      rw [splitOnDot.eq_def]
      simp only [if_neg (h x (by simp))]
      rw [ih (fun ch hch => h ch (by simp [hch]))]

/-- Ascii-ness of a flat JSON value (string content below 128). -/
def asciiJVal : JVal → Prop
  | JVal.str s => AsciiStr s
  | _ => True

instance (v : JVal) : Decidable (asciiJVal v) := by
  cases v <;> simp only [asciiJVal] <;> infer_instance

/-- Ascii-ness of a flat JSON object. -/
def AsciiJObj (o : JObj) : Prop := ∀ kv ∈ o, AsciiStr kv.1 ∧ asciiJVal kv.2

instance (o : JObj) : Decidable (AsciiJObj o) := by
  unfold AsciiJObj; infer_instance

theorem jsonEscapeChar_lt (ch : Nat) (hch : ch < 128) : ∀ x ∈ jsonEscapeChar ch, x < 128 := by
  intro x hx
  have hd : ∀ v, v < 16 → hexDigitChar v < 128 := by decide
  unfold jsonEscapeChar at hx
  split_ifs at hx with h1 h2 h3 h4 h5 h6 h7 h8
  all_goals
    simp only [List.mem_cons, List.mem_singleton, List.not_mem_nil, or_false] at hx
  · rcases hx with h | h <;> omega
  · rcases hx with h | h <;> omega
  · rcases hx with h | h <;> omega
  · rcases hx with h | h <;> omega
  · rcases hx with h | h <;> omega
  · rcases hx with h | h <;> omega
  · rcases hx with h | h <;> omega
  · rcases hx with h | h | h | h | h | h
    · omega
    · omega
    · omega
    · omega
    · subst h; exact hd _ (by omega)
    · subst h; exact hd _ (by omega)
  · omega

theorem jsonEscape_ascii (s : Str) (h : AsciiStr s) : AsciiStr (jsonEscape s) := by
  induction s with
  | nil => intro x hx; simp [jsonEscape] at hx
  | cons ch t ih =>
      intro x hx
      have hstep : jsonEscape (ch :: t) = jsonEscapeChar ch ++ jsonEscape t := rfl
      rw [hstep] at hx
      rcases List.mem_append.mp hx with h1 | h1
      · exact jsonEscapeChar_lt ch (h ch (by simp)) x h1
      · exact ih (fun y hy => h y (by simp [hy])) x h1

theorem printStrLit_ascii (s : Str) (h : AsciiStr s) : AsciiStr (printStrLit s) := by
  intro x hx
  unfold printStrLit at hx
  rcases List.mem_cons.mp hx with h1 | h1
  · omega
  · rcases List.mem_append.mp h1 with h2 | h2
    · exact jsonEscape_ascii s h x h2
    · rw [List.mem_singleton] at h2
      omega

theorem intToStr_ascii (n : Int) : AsciiStr (intToStr n) := by
  have hnat : ∀ m : Nat, AsciiStr (natDigitChars m) := by
    intro m x hx
    have := natDigitChars_digits m x hx
    simp [isDigitCode] at this
    omega
  cases n with
  | ofNat m => exact hnat m
  | negSucc m =>
      intro x hx
      simp only [intToStr, List.mem_cons] at hx
      rcases hx with h | h
      · omega
      · exact hnat (m + 1) x h

theorem printJVal_ascii (v : JVal) (h : asciiJVal v) : AsciiStr (printJVal v) := by
  cases v with
  | str s => exact printStrLit_ascii s h
  | num n => exact intToStr_ascii n
  | bool b => cases b <;> decide
  | nul => decide

theorem printJObjFields_ascii (o : JObj) (h : AsciiJObj o) :
    AsciiStr (printJObjFields o) := by
  induction o with
  | nil => intro x hx; simp [printJObjFields] at hx
  | cons kv t ih =>
      obtain ⟨k, v⟩ := kv
      have hk := (h (k, v) (by simp)).1
      have hv := (h (k, v) (by simp)).2
      cases t with
      | nil =>
          intro x hx
          simp only [printJObjFields, List.mem_append, List.mem_cons] at hx
          rcases hx with h1 | h1 | h1
          · exact printStrLit_ascii k hk x h1
          · omega
          · exact printJVal_ascii v hv x h1
      | cons kv2 t2 =>
          intro x hx
          have hstep : printJObjFields ((k, v) :: kv2 :: t2)
              = printStrLit k ++ 58 :: (printJVal v ++ 44 :: printJObjFields (kv2 :: t2)) := by
            simp [printJObjFields]
          rw [hstep] at hx
          simp only [List.mem_append, List.mem_cons] at hx
          rcases hx with h1 | h1 | h1 | h1 | h1
          · exact printStrLit_ascii k hk x h1
          · omega
          · exact printJVal_ascii v hv x h1
          · omega
          · exact ih (fun kv3 hkv3 => h kv3 (by simp [hkv3])) x h1

theorem printJObj_valid (o : JObj) (h : AsciiJObj o) : ValidBytes (printJObj o) := by
  intro x hx
  unfold printJObj at hx
  rcases List.mem_cons.mp hx with h1 | h1
  · omega
  · rcases List.mem_append.mp h1 with h2 | h2
    · have := printJObjFields_ascii o h x h2
      omega
    · rw [List.mem_singleton] at h2
      omega

/-- A three-segment signed token over printed header and payload objects
(the shape `issueAuthToken` emits). -/
def makeToken (c : Crypto) (hdr pld : JObj) (secret : Str) : Str :=
  let eh := base64UrlEncode (printJObj hdr)
  let ep := base64UrlEncode (printJObj pld)
  (eh ++ 46 :: ep) ++ 46 :: base64UrlEncode (signHmac c (eh ++ 46 :: ep) secret)

theorem issueAuthToken_makeToken (c : Crypto) (user : AuthUser) (secret : Str) (now : Int) :
    issueAuthToken c user secret now
      = makeToken c jwtHeader (tokenPayloadObj user now (now + tokenLifetimeSeconds)) secret := rfl

/-- Evaluating `verifyAuthToken` on a constructed, correctly signed
token: the structural and signature checks pass, and the result is
determined by the header and payload field lookups. -/
theorem verifyAuthToken_makeToken (c : Crypto) (hdr pld : JObj) (secret : Str) (now : Int)
    (hah : AsciiJObj hdr) (hap : AsciiJObj pld) (hne : hdr ≠ []) (hnep : pld ≠ []) :
    verifyAuthToken c (makeToken c hdr pld secret) secret now
      = (if jLookup hdr (strLit "alg") ≠ some (JVal.str (strLit "HS256")) ∨
            jLookup hdr (strLit "typ") ≠ some (JVal.str (strLit "JWT")) then none
         else
           match jLookup pld (strLit "sub"), jLookup pld (strLit "firstName") with
           | some (JVal.str sub), some (JVal.str firstName) =>
               match jLookup pld (strLit "exp") with
               | some (JVal.num e) =>
                   if e ≤ now then none
                   else
                     some { id := sub, firstName := firstName,
                            lastName := asOptStr (jLookup pld (strLit "lastName")),
                            username := asOptStr (jLookup pld (strLit "username")),
                            photoUrl := asOptStr (jLookup pld (strLit "photoUrl")),
                            authDate :=
                              match jLookup pld (strLit "authDate") with
                              | some (JVal.num n) => n
                              | _ => 0 }
               | _ => none
           | _, _ => none) := by
  have hvh : ValidBytes (printJObj hdr) := printJObj_valid hdr hah
  have hvp : ValidBytes (printJObj pld) := printJObj_valid pld hap
  have hvs : ValidBytes (signHmac c
      (base64UrlEncode (printJObj hdr) ++ 46 :: base64UrlEncode (printJObj pld)) secret) :=
    c.hmacSha256_valid _ _
  have hsplit : splitOnDot (makeToken c hdr pld secret)
      = [base64UrlEncode (printJObj hdr), base64UrlEncode (printJObj pld),
         base64UrlEncode (signHmac c
           (base64UrlEncode (printJObj hdr) ++ 46 :: base64UrlEncode (printJObj pld)) secret)] := by
    show splitOnDot ((base64UrlEncode (printJObj hdr) ++ 46 :: base64UrlEncode (printJObj pld))
        ++ 46 :: base64UrlEncode (signHmac c _ secret)) = _
    rw [List.append_assoc, List.cons_append,
        splitOnDot_append _ _ (base64UrlEncode_ne_dot _ hvh),
        splitOnDot_append _ _ (base64UrlEncode_ne_dot _ hvp),
        splitOnDot_dotfree _ (base64UrlEncode_ne_dot _ hvs)]
  simp only [verifyAuthToken, hsplit]
  rw [show tokenSignatureCheck
        (base64UrlEncode (signHmac c
          (base64UrlEncode (printJObj hdr) ++ 46 :: base64UrlEncode (printJObj pld)) secret))
        (base64UrlEncode (signHmac c
          (base64UrlEncode (printJObj hdr) ++ 46 :: base64UrlEncode (printJObj pld)) secret))
      = true from by simp [tokenSignatureCheck]]
  simp only [Bool.true_eq_false, if_false, ite_false, if_neg]
  rw [base64UrlDecode_encode _ hvh, base64UrlDecode_encode _ hvp,
      parseJson_print hdr hne, parseJson_print pld hnep]

theorem safeStringCompare_self_hex (d : Bytes) (hd : ValidBytes d) :
    safeStringCompare (bytesToHex d) (bytesToHex d) = true := by
  unfold safeStringCompare
  rw [hexToBytes_bytesToHex d hd]
  rw [if_neg (by simp)]
  exact timingSafeEqualBytes_self d

theorem mem_optJField {kv : Str × JVal} {k : Str} {v : Option Str}
    (h : kv ∈ optJField k v) : ∃ s, v = some s ∧ kv = (k, JVal.str s) := by
  cases v with
  | none => simp [optJField] at h
  | some s =>
      simp [optJField] at h
      exact ⟨s, rfl, h⟩

theorem tokenPayloadObj_ascii (user : AuthUser) (iat exp : Int)
    (hid : AsciiStr user.id) (hfn : AsciiStr user.firstName)
    (hln : ∀ s, user.lastName = some s → AsciiStr s)
    (hun : ∀ s, user.username = some s → AsciiStr s)
    (hpu : ∀ s, user.photoUrl = some s → AsciiStr s) :
    AsciiJObj (tokenPayloadObj user iat exp) := by
  intro kv hkv
  unfold tokenPayloadObj at hkv
  rcases List.mem_append.mp hkv with h | h
  · rcases List.mem_append.mp h with h | h
    · rcases List.mem_append.mp h with h | h
      · rcases List.mem_append.mp h with h | h
        · simp only [List.mem_cons, List.not_mem_nil, or_false] at h
          rcases h with h | h
          · subst h; exact ⟨show AsciiStr (strLit "sub") by decide, hid⟩
          · subst h; exact ⟨show AsciiStr (strLit "firstName") by decide, hfn⟩
        · obtain ⟨s, hs, hkv2⟩ := mem_optJField h
          subst hkv2; exact ⟨show AsciiStr (strLit "lastName") by decide, hln s hs⟩
      · obtain ⟨s, hs, hkv2⟩ := mem_optJField h
        subst hkv2; exact ⟨show AsciiStr (strLit "username") by decide, hun s hs⟩
    · obtain ⟨s, hs, hkv2⟩ := mem_optJField h
      subst hkv2; exact ⟨show AsciiStr (strLit "photoUrl") by decide, hpu s hs⟩
  · simp only [List.mem_cons, List.not_mem_nil, or_false] at h
    rcases h with h | h | h
    · subst h; exact ⟨show AsciiStr (strLit "authDate") by decide, trivial⟩
    · subst h; exact ⟨show AsciiStr (strLit "iat") by decide, trivial⟩
    · subst h; exact ⟨show AsciiStr (strLit "exp") by decide, trivial⟩

/- ## The claims -/

/-- C9: for every byte sequence `b`, `base64UrlDecode (base64UrlEncode b)`
reproduces `b` exactly; the encoder's output never contains `+`, `/` or
`=` (the decoder re-adds the padding the encoder stripped before
decoding). -/
theorem c9_base64url_round_trip (b : Bytes) (hb : ValidBytes b) :
    base64UrlDecode (base64UrlEncode b) = b ∧
    ∀ ch ∈ base64UrlEncode b, ch ≠ 43 ∧ ch ≠ 47 ∧ ch ≠ 61 := by
  refine ⟨base64UrlDecode_encode b hb, ?_⟩
  rw [base64UrlEncode_eq b hb]
  intro ch hch
  rcases List.mem_map.mp hch with ⟨i, hi, rfl⟩
  have h := urlSafeChar_base64IndexChar_ne i (toSextets_lt b hb i hi)
  exact ⟨h.1, h.2.1, h.2.2.1⟩

theorem c9_base64url_round_trip_witness :
    ValidBytes [0, 255, 77, 1] ∧
    (base64UrlDecode (base64UrlEncode [0, 255, 77, 1]) = [0, 255, 77, 1] ∧
     ∀ ch ∈ base64UrlEncode [0, 255, 77, 1], ch ≠ 43 ∧ ch ≠ 47 ∧ ch ≠ 61) :=
  ⟨by decide, c9_base64url_round_trip [0, 255, 77, 1] (by decide)⟩

/-- C8: the resolved signing secret is the trimmed `AUTH_SECRET` when
set and non-empty after trimming, else the trimmed `TELEGRAM_BOT_TOKEN`
when set and non-empty after trimming, else the fixed development string
`unityprep-dev-auth-secret`. -/
theorem c8_auth_secret_fallback (env : Env) :
    (∀ s, env.AUTH_SECRET = some s → (jsTrim s).isEmpty = false →
        resolveAuthSecret env = jsTrim s) ∧
    (∀ t, (env.AUTH_SECRET = none ∨ ∃ s, env.AUTH_SECRET = some s ∧ (jsTrim s).isEmpty = true) →
        env.TELEGRAM_BOT_TOKEN = some t → (jsTrim t).isEmpty = false →
        resolveAuthSecret env = jsTrim t) ∧
    ((env.AUTH_SECRET = none ∨ ∃ s, env.AUTH_SECRET = some s ∧ (jsTrim s).isEmpty = true) →
     (env.TELEGRAM_BOT_TOKEN = none ∨ ∃ t, env.TELEGRAM_BOT_TOKEN = some t ∧ (jsTrim t).isEmpty = true) →
     resolveAuthSecret env = devAuthSecret) := by
  refine ⟨?_, ?_, ?_⟩
  · intro s hs hne
    simp [resolveAuthSecret, orFalsyTrim, hs, hne]
  · intro t h1 h2 h3
    rcases h1 with h1 | ⟨s, hs, hse⟩
    · simp [resolveAuthSecret, orFalsyTrim, h1, h2, h3]
    · simp [resolveAuthSecret, orFalsyTrim, hs, hse, h2, h3]
  · intro h1 h2
    rcases h1 with h1 | ⟨s, hs, hse⟩ <;> rcases h2 with h2 | ⟨t, ht, hte⟩ <;>
      simp [resolveAuthSecret, orFalsyTrim, *]

theorem c8_auth_secret_fallback_witness :
    ((jsTrim (strLit "  ")).isEmpty = true ∧ (jsTrim (strLit " tok ")).isEmpty = false) ∧
    resolveAuthSecret ⟨some (strLit "  "), some (strLit " tok ")⟩ = jsTrim (strLit " tok ") :=
  ⟨⟨by decide, by decide⟩,
   (c8_auth_secret_fallback ⟨some (strLit "  "), some (strLit " tok ")⟩).2.1
     (strLit " tok ") (Or.inr ⟨strLit "  ", rfl, by decide⟩) rfl (by decide)⟩

/-- C2 (evidence for the divergence): the Node token verifier's
signature comparison (`signature !== expectedSignature`,
`tokenSignatureCheck` here) is extensionally ordinary string equality;
a short-circuiting scan of such an equality does a content-dependent
number of character comparisons (1 versus 3 on equal-length inputs),
whereas the assertion verifier's `timingSafeEqualBytes` loop always
performs length-many byte operations, and `safeStringCompare` returns
`false` (not an error) on a length mismatch. -/
theorem c2_token_signature_plain_equality :
    (∀ l r : Str, tokenSignatureCheck l r = decide (l = r)) ∧
    eqScanSteps (strLit "xbc") (strLit "abc") = 1 ∧
    eqScanSteps (strLit "abx") (strLit "abc") = 3 ∧
    (strLit "xbc").length = (strLit "abx").length ∧
    timingSafeEqualSteps [0, 0, 0] [1, 2, 3] = 3 ∧
    timingSafeEqualSteps [1, 2, 0] [1, 2, 3] = 3 ∧
    safeStringCompare (strLit "ab") (strLit "abcd") = false := by
  refine ⟨?_, by decide, by decide, by decide, by decide, by decide, by decide⟩
  intro l r
  by_cases h : l = r
  · simp [tokenSignatureCheck, h]
  · simp [tokenSignatureCheck, h]

theorem verifyTelegram_success (c : Crypto) (p : TelegramAuthPayload) (botToken : Str)
    (now : Int)
    (hwin : ¬ (p.auth_date > now + 60 ∨ now - p.auth_date > telegramAuthMaxAgeSeconds))
    (hhash : p.hash = bytesToHex (c.hmacSha256 (c.sha256 botToken)
      (getTelegramDataCheckString p))) :
    verifyTelegramAuthPayload c p botToken now
      = some { id := p.id, firstName := p.first_name, lastName := p.last_name,
               username := p.username, photoUrl := p.photo_url,
               authDate := p.auth_date } := by
  unfold verifyTelegramAuthPayload
  rw [if_neg hwin]
  show (if ¬ safeStringCompare
        (bytesToHex (c.hmacSha256 (c.sha256 botToken) (getTelegramDataCheckString p)))
        (toLowerCase p.hash) = true then none
      else some ({ id := p.id, firstName := p.first_name, lastName := p.last_name,
                   username := p.username, photoUrl := p.photo_url,
                   authDate := p.auth_date } : AuthUser)) = _
  rw [hhash, toLowerCase_bytesToHex _ (c.hmacSha256_valid _ _),
      safeStringCompare_self_hex _ (c.hmacSha256_valid _ _)]
  simp

/-- C4: the freshness window of the assertion verifier — any assertion
dated more than 60 seconds ahead or more than 86400 seconds behind the
clock is rejected regardless of its signature; `now - 86401` is
rejected, and `now - 86399` with a correct signature is accepted. -/
theorem c4_timestamp_window (c : Crypto) (botToken : Str) :
    (∀ (p : TelegramAuthPayload) (now : Int),
        p.auth_date > now + 60 ∨ now - p.auth_date > 86400 →
        verifyTelegramAuthPayload c p botToken now = none) ∧
    (∀ (p : TelegramAuthPayload) (now : Int), p.auth_date = now - 86401 →
        verifyTelegramAuthPayload c p botToken now = none) ∧
    (∀ (p : TelegramAuthPayload) (now : Int),
        p.auth_date = now - 86399 →
        p.hash = bytesToHex (c.hmacSha256 (c.sha256 botToken) (getTelegramDataCheckString p)) →
        verifyTelegramAuthPayload c p botToken now
          = some { id := p.id, firstName := p.first_name, lastName := p.last_name,
                   username := p.username, photoUrl := p.photo_url,
                   authDate := p.auth_date }) := by
  refine ⟨?_, ?_, ?_⟩
  · intro p now h
    unfold verifyTelegramAuthPayload
    rw [if_pos (by unfold telegramAuthMaxAgeSeconds; omega)]
  · intro p now h
    unfold verifyTelegramAuthPayload
    rw [if_pos (by unfold telegramAuthMaxAgeSeconds; omega)]
  · intro p now h1 h2
    exact verifyTelegram_success c p botToken now
      (by unfold telegramAuthMaxAgeSeconds; omega) h2

theorem c4_timestamp_window_witness :
    ((-86401 : Int) = 0 - 86401) ∧
    verifyTelegramAuthPayload constCrypto
      ⟨strLit "9", strLit "B", none, none, none, -86401, []⟩ [] 0 = none :=
  ⟨by decide,
   (c4_timestamp_window constCrypto []).2.1 ⟨strLit "9", strLit "B", none, none, none, -86401, []⟩
     0 (by decide)⟩

/-- C3: the concrete verification scenario — bot credential
`test-token`, assertion `{id: "123", first_name: "Ann", auth_date: T}`
whose hash is the lowercase hex of HMAC-SHA256 keyed with the SHA-256
digest of the credential over `auth_date=T\nfirst_name=Ann\nid=123`,
verified inside the freshness window, succeeds and yields
`{id: "123", firstName: "Ann", authDate: T}` with the optional fields
absent. -/
theorem c3_concrete_scenario (c : Crypto) (T now : Int)
    (hfresh : ¬ (T > now + 60 ∨ now - T > 86400)) :
    verifyTelegramAuthPayload c
      { id := strLit "123", first_name := strLit "Ann", last_name := none,
        username := none, photo_url := none, auth_date := T,
        hash := bytesToHex (c.hmacSha256 (c.sha256 (strLit "test-token"))
          (strLit "auth_date=" ++ intToStr T ++ strLit "\nfirst_name=Ann\nid=123")) }
      (strLit "test-token") now
    = some { id := strLit "123", firstName := strLit "Ann", lastName := none,
             username := none, photoUrl := none, authDate := T } := by
  have hdcs : getTelegramDataCheckString
      { id := strLit "123", first_name := strLit "Ann", last_name := none,
        username := none, photo_url := none, auth_date := T,
        hash := bytesToHex (c.hmacSha256 (c.sha256 (strLit "test-token"))
          (strLit "auth_date=" ++ intToStr T ++ strLit "\nfirst_name=Ann\nid=123")) }
      = strLit "auth_date=" ++ intToStr T ++ strLit "\nfirst_name=Ann\nid=123" := by
    have h1 : getTelegramDataCheckString
        { id := strLit "123", first_name := strLit "Ann", last_name := none,
          username := none, photo_url := none, auth_date := T,
          hash := bytesToHex (c.hmacSha256 (c.sha256 (strLit "test-token"))
            (strLit "auth_date=" ++ intToStr T ++ strLit "\nfirst_name=Ann\nid=123")) }
        = (strLit "auth_date" ++ 61 :: intToStr T)
          ++ 10 :: ((strLit "first_name" ++ 61 :: strLit "Ann")
            ++ 10 :: (strLit "id" ++ 61 :: strLit "123")) := by
      simp +decide [getTelegramDataCheckString, optField, sortFields, insertField, joinNl]
    rw [h1]
    have e1 : strLit "auth_date=" = strLit "auth_date" ++ [61] := by decide
    have e2 : strLit "\nfirst_name=Ann\nid=123"
        = 10 :: ((strLit "first_name" ++ 61 :: strLit "Ann")
            ++ 10 :: (strLit "id" ++ 61 :: strLit "123")) := by decide
    rw [e1, e2]
    simp
  apply verifyTelegram_success
  · show ¬ (T > now + 60 ∨ now - T > telegramAuthMaxAgeSeconds)
    unfold telegramAuthMaxAgeSeconds
    omega
  · show bytesToHex (c.hmacSha256 (c.sha256 (strLit "test-token"))
        (strLit "auth_date=" ++ intToStr T ++ strLit "\nfirst_name=Ann\nid=123"))
      = bytesToHex (c.hmacSha256 (c.sha256 (strLit "test-token")) (getTelegramDataCheckString _))
    rw [hdcs]

theorem c3_concrete_scenario_witness :
    ¬ ((1000 : Int) > 1000 + 60 ∨ (1000 : Int) - 1000 > 86400) ∧
    verifyTelegramAuthPayload constCrypto
      { id := strLit "123", first_name := strLit "Ann", last_name := none,
        username := none, photo_url := none, auth_date := 1000,
        hash := bytesToHex (constCrypto.hmacSha256 (constCrypto.sha256 (strLit "test-token"))
          (strLit "auth_date=" ++ intToStr 1000 ++ strLit "\nfirst_name=Ann\nid=123")) }
      (strLit "test-token") 1000
    = some { id := strLit "123", firstName := strLit "Ann", lastName := none,
             username := none, photoUrl := none, authDate := 1000 } :=
  ⟨by decide, c3_concrete_scenario constCrypto 1000 1000 (by decide)⟩

/-- The data-check string as the spec words it: one `key=value` line per
field, keys in lexicographic order (`auth_date`, `first_name`, `id`,
then the included optionals `last_name`, `photo_url`, `username`); an
optional field is included exactly when it is present and non-empty (an
empty string behaves as absent, cf. the empty-optionals claim). -/
def specOptLine (k : Str) (v : Option Str) : List Str :=
  match v with
  | some s => if s.isEmpty then [] else [k ++ 61 :: s]
  | none => []

def specDataCheckString (p : TelegramAuthPayload) : Str :=
  joinNl ([strLit "auth_date" ++ 61 :: intToStr p.auth_date,
           strLit "first_name" ++ 61 :: p.first_name,
           strLit "id" ++ 61 :: p.id]
    ++ specOptLine (strLit "last_name") p.last_name
    ++ specOptLine (strLit "photo_url") p.photo_url
    ++ specOptLine (strLit "username") p.username)

/-- C5: canonicalization — the data-check string is exactly the
`key=value` lines sorted lexicographically by key (required keys always,
optionals only when included), and it depends only on the field values
(not on any order of appearance), shown by its invariance under
replacing the payload by any payload with the same fields. -/
theorem c5_canonicalization (p : TelegramAuthPayload) :
    getTelegramDataCheckString p = specDataCheckString p ∧
    ∀ q : TelegramAuthPayload, q.id = p.id → q.first_name = p.first_name →
      q.last_name = p.last_name → q.username = p.username → q.photo_url = p.photo_url →
      q.auth_date = p.auth_date →
      getTelegramDataCheckString q = getTelegramDataCheckString p := by
  constructor
  · rcases p with ⟨i, f, ln, un, pu, ad, hash⟩
    rcases ln with _ | ln <;> rcases un with _ | un <;> rcases pu with _ | pu <;>
      simp only [getTelegramDataCheckString, specDataCheckString, optField, specOptLine] <;>
      (try split_ifs) <;>
      simp +decide [sortFields, insertField, joinNl]
  · intro q h1 h2 h3 h4 h5 h6
    unfold getTelegramDataCheckString
    rw [h1, h2, h3, h4, h5, h6]

theorem c5_canonicalization_witness :
    getTelegramDataCheckString
        ⟨strLit "7", strLit "Bo", some (strLit "L"), none, some [], 5, strLit "aa"⟩
      = specDataCheckString
        ⟨strLit "7", strLit "Bo", some (strLit "L"), none, some [], 5, strLit "aa"⟩ ∧
    getTelegramDataCheckString
        ⟨strLit "7", strLit "Bo", some (strLit "L"), none, some [], 5, strLit "bb"⟩
      = getTelegramDataCheckString
        ⟨strLit "7", strLit "Bo", some (strLit "L"), none, some [], 5, strLit "aa"⟩ :=
  ⟨(c5_canonicalization _).1,
   (c5_canonicalization ⟨strLit "7", strLit "Bo", some (strLit "L"), none, some [], 5,
      strLit "aa"⟩).2 _ rfl rfl rfl rfl rfl rfl⟩

/-- `verifyTelegramAuthPayload` as nested plain conditionals. -/
theorem verifyTelegramAuthPayload_eq_ifs (c : Crypto) (p : TelegramAuthPayload)
    (botToken : Str) (now : Int) :
    verifyTelegramAuthPayload c p botToken now
      = if p.auth_date > now + 60 ∨ now - p.auth_date > telegramAuthMaxAgeSeconds then none
        else if ¬ safeStringCompare
            (bytesToHex (c.hmacSha256 (c.sha256 botToken) (getTelegramDataCheckString p)))
            (toLowerCase p.hash) = true then none
        else some { id := p.id, firstName := p.first_name, lastName := p.last_name,
                    username := p.username, photoUrl := p.photo_url,
                    authDate := p.auth_date } := rfl

theorem verifyTelegram_isSome_congr (c : Crypto) (p q : TelegramAuthPayload)
    (botToken : Str) (now : Int)
    (hdcs : getTelegramDataCheckString p = getTelegramDataCheckString q)
    (hdate : p.auth_date = q.auth_date) (hhash : p.hash = q.hash) :
    (verifyTelegramAuthPayload c p botToken now).isSome
      = (verifyTelegramAuthPayload c q botToken now).isSome := by
  rw [verifyTelegramAuthPayload_eq_ifs, verifyTelegramAuthPayload_eq_ifs,
      hdcs, hdate, hhash]
  split_ifs <;> rfl

/-- C10 (amended): an empty-string optional field is omitted from the
data-check string exactly like an absent one, and the accept/reject
outcome of `verifyTelegramAuthPayload` is the same; only the returned
user projection differs on acceptance (it keeps the empty string). -/
theorem c10_empty_optionals_amended (c : Crypto) (p : TelegramAuthPayload)
    (botToken : Str) (now : Int) :
    (getTelegramDataCheckString { p with last_name := some [] }
       = getTelegramDataCheckString { p with last_name := none } ∧
     getTelegramDataCheckString { p with username := some [] }
       = getTelegramDataCheckString { p with username := none } ∧
     getTelegramDataCheckString { p with photo_url := some [] }
       = getTelegramDataCheckString { p with photo_url := none }) ∧
    ((verifyTelegramAuthPayload c { p with last_name := some [] } botToken now).isSome
       = (verifyTelegramAuthPayload c { p with last_name := none } botToken now).isSome ∧
     (verifyTelegramAuthPayload c { p with username := some [] } botToken now).isSome
       = (verifyTelegramAuthPayload c { p with username := none } botToken now).isSome ∧
     (verifyTelegramAuthPayload c { p with photo_url := some [] } botToken now).isSome
       = (verifyTelegramAuthPayload c { p with photo_url := none } botToken now).isSome) := by
  have hdcs1 : getTelegramDataCheckString { p with last_name := some [] }
      = getTelegramDataCheckString { p with last_name := none } := by
    simp [getTelegramDataCheckString, optField]
  have hdcs2 : getTelegramDataCheckString { p with username := some [] }
      = getTelegramDataCheckString { p with username := none } := by
    simp [getTelegramDataCheckString, optField]
  have hdcs3 : getTelegramDataCheckString { p with photo_url := some [] }
      = getTelegramDataCheckString { p with photo_url := none } := by
    simp [getTelegramDataCheckString, optField]
  exact ⟨⟨hdcs1, hdcs2, hdcs3⟩,
    verifyTelegram_isSome_congr c _ _ botToken now hdcs1 rfl rfl,
    verifyTelegram_isSome_congr c _ _ botToken now hdcs2 rfl rfl,
    verifyTelegram_isSome_congr c _ _ botToken now hdcs3 rfl rfl⟩

/-- C10 (counterexample to the claim as stated): with the constant
primitives, a correctly hashed payload with `last_name = ""` and the
same payload with `last_name` absent both verify, but the two results
are not identical — the empty string is preserved in the returned user. -/
theorem c10_counterexample :
    verifyTelegramAuthPayload constCrypto
      ⟨strLit "1", strLit "A", some [], none, none, 0, bytesToHex (List.replicate 32 0)⟩ [] 0
    ≠ verifyTelegramAuthPayload constCrypto
      ⟨strLit "1", strLit "A", none, none, none, 0, bytesToHex (List.replicate 32 0)⟩ [] 0 := by
  decide

/-- C1: round-trip mint/verify — verifying a token minted by
`issueAuthToken` with the same secret, at any time strictly before the
token's expiry, returns exactly the input user (all fields preserved;
the token-local `iat`/`exp` are not part of the user). -/
theorem c1_round_trip_mint_verify (c : Crypto) (user : AuthUser) (secret : Str)
    (mintTime verifyTime : Int)
    (hid : AsciiStr user.id) (hfn : AsciiStr user.firstName)
    (hln : ∀ s, user.lastName = some s → AsciiStr s)
    (hun : ∀ s, user.username = some s → AsciiStr s)
    (hpu : ∀ s, user.photoUrl = some s → AsciiStr s)
    (hbefore : verifyTime < mintTime + tokenLifetimeSeconds) :
    verifyAuthToken c (issueAuthToken c user secret mintTime) secret verifyTime
      = some user := by
  rw [issueAuthToken_makeToken]
  rw [verifyAuthToken_makeToken c jwtHeader _ secret verifyTime (by decide)
      (tokenPayloadObj_ascii user mintTime (mintTime + tokenLifetimeSeconds)
        hid hfn hln hun hpu)
      (by decide) (by simp [tokenPayloadObj])]
  rw [if_neg (by decide)]
  have hexp : ¬ (mintTime + tokenLifetimeSeconds ≤ verifyTime) := by
    unfold tokenLifetimeSeconds at hbefore ⊢
    omega
  rcases user with ⟨i, f, ln, un, pu, ad⟩
  rcases ln with _ | ln <;> rcases un with _ | un <;> rcases pu with _ | pu <;>
    simp +decide [tokenPayloadObj, optJField, jLookup, asOptStr, hexp]

theorem c1_round_trip_mint_verify_witness :
    AsciiStr (strLit "77") ∧ AsciiStr (strLit "Ann") ∧ (5 : Int) < 0 + tokenLifetimeSeconds ∧
    verifyAuthToken constCrypto
        (issueAuthToken constCrypto
          ⟨strLit "77", strLit "Ann", some (strLit "Lee"), none, some [], 42⟩
          (strLit "s3cr3t") 0)
        (strLit "s3cr3t") 5
      = some ⟨strLit "77", strLit "Ann", some (strLit "Lee"), none, some [], 42⟩ :=
  ⟨by decide, by decide, by decide,
   c1_round_trip_mint_verify constCrypto
     ⟨strLit "77", strLit "Ann", some (strLit "Lee"), none, some [], 42⟩
     (strLit "s3cr3t") 0 5 (by decide) (by decide)
     (by intro s hs; rw [← Option.some.inj hs]; decide)
     (by intro s hs; simp at hs)
     (by intro s hs; rw [← Option.some.inj hs]; decide)
     (by decide)⟩

/-- C6: expiry strictness — a correctly signed, well-formed token is
rejected whenever the payload's `exp` is missing, not a number, or not
strictly greater than the clock (so `exp = now - 1` and `exp = now`
fail), and accepted with `exp = now + 1` when the subject and first-name
checks pass. -/
theorem c6_expiry_strictness (c : Crypto) (secret : Str) (pld : JObj) (now : Int)
    (ha : AsciiJObj pld) (hne : pld ≠ []) :
    ((match jLookup pld (strLit "exp") with
      | some (JVal.num e) => e ≤ now
      | _ => True) →
      verifyAuthToken c (makeToken c jwtHeader pld secret) secret now = none) ∧
    (∀ sub firstName : Str,
      jLookup pld (strLit "sub") = some (JVal.str sub) →
      jLookup pld (strLit "firstName") = some (JVal.str firstName) →
      jLookup pld (strLit "exp") = some (JVal.num (now + 1)) →
      verifyAuthToken c (makeToken c jwtHeader pld secret) secret now
        = some { id := sub, firstName := firstName,
                 lastName := asOptStr (jLookup pld (strLit "lastName")),
                 username := asOptStr (jLookup pld (strLit "username")),
                 photoUrl := asOptStr (jLookup pld (strLit "photoUrl")),
                 authDate :=
                   match jLookup pld (strLit "authDate") with
                   | some (JVal.num n) => n
                   | _ => 0 }) := by
  have hbridge := verifyAuthToken_makeToken c jwtHeader pld secret now (by decide) ha
    (by decide) hne
  rw [if_neg (by decide)] at hbridge
  constructor
  · intro hexp
    rw [hbridge]
    cases h1 : jLookup pld (strLit "sub") with
    | none => rfl
    | some v1 =>
        cases v1 with
        | str sub =>
            cases h2 : jLookup pld (strLit "firstName") with
            | none => rfl
            | some v2 =>
                cases v2 with
                | str firstName =>
                    cases h3 : jLookup pld (strLit "exp") with
                    | none => rfl
                    | some v3 =>
                        cases v3 with
                        | num e =>
                            rw [h3] at hexp
                            simp [show e ≤ now from hexp]
                        | str s => rfl
                        | bool b => rfl
                        | nul => rfl
                | num n => rfl
                | bool b => rfl
                | nul => rfl
        | num n => rfl
        | bool b => rfl
        | nul => rfl
  · intro sub firstName h1 h2 h3
    rw [hbridge]
    simp only [h1, h2, h3]
    rw [if_neg (by omega)]

theorem c6_expiry_strictness_witness :
    AsciiJObj [(strLit "sub", JVal.str (strLit "1")),
               (strLit "firstName", JVal.str (strLit "A")),
               (strLit "exp", JVal.num 5)] ∧
    jLookup [(strLit "sub", JVal.str (strLit "1")),
             (strLit "firstName", JVal.str (strLit "A")),
             (strLit "exp", JVal.num 5)] (strLit "exp") = some (JVal.num (4 + 1)) ∧
    verifyAuthToken constCrypto
        (makeToken constCrypto jwtHeader
          [(strLit "sub", JVal.str (strLit "1")),
           (strLit "firstName", JVal.str (strLit "A")),
           (strLit "exp", JVal.num 5)] (strLit "k"))
        (strLit "k") 4
      = some { id := strLit "1", firstName := strLit "A", lastName := none,
               username := none, photoUrl := none, authDate := 0 } := by
  refine ⟨by decide, by decide, ?_⟩
  have h := (c6_expiry_strictness constCrypto (strLit "k")
      [(strLit "sub", JVal.str (strLit "1")),
       (strLit "firstName", JVal.str (strLit "A")),
       (strLit "exp", JVal.num 5)] 4 (by decide) (by decide)).2
    (strLit "1") (strLit "A") (by decide) (by decide) (by decide)
  rw [h]
  decide

/-- C7: total, uniform rejection of malformed tokens — `verifyAuthToken`
is a total function into `Option` (it never throws), and each failure
condition (wrong segment count, signature mismatch, unparsable header,
wrong `alg`/`typ`, unparsable payload, non-string subject or first name)
yields the single undifferentiated outcome `none`. -/
theorem c7_uniform_rejection (c : Crypto) :
    (∀ (token secret : Str) (now : Int), (splitOnDot token).length ≠ 3 →
        verifyAuthToken c token secret now = none) ∧
    (∀ (token eh ep sig secret : Str) (now : Int),
        splitOnDot token = [eh, ep, sig] →
        tokenSignatureCheck sig (base64UrlEncode (signHmac c (eh ++ 46 :: ep) secret))
          = false →
        verifyAuthToken c token secret now = none) ∧
    (∀ (token eh ep sig secret : Str) (now : Int),
        splitOnDot token = [eh, ep, sig] →
        parseJson (base64UrlDecode eh) = none →
        verifyAuthToken c token secret now = none) ∧
    (∀ (token eh ep sig secret : Str) (now : Int) (hdr : JObj),
        splitOnDot token = [eh, ep, sig] →
        parseJson (base64UrlDecode eh) = some hdr →
        (jLookup hdr (strLit "alg") ≠ some (JVal.str (strLit "HS256")) ∨
         jLookup hdr (strLit "typ") ≠ some (JVal.str (strLit "JWT"))) →
        verifyAuthToken c token secret now = none) ∧
    (∀ (token eh ep sig secret : Str) (now : Int),
        splitOnDot token = [eh, ep, sig] →
        parseJson (base64UrlDecode ep) = none →
        verifyAuthToken c token secret now = none) ∧
    (∀ (token eh ep sig secret : Str) (now : Int) (pld : JObj),
        splitOnDot token = [eh, ep, sig] →
        parseJson (base64UrlDecode ep) = some pld →
        ((∀ s, jLookup pld (strLit "sub") ≠ some (JVal.str s)) ∨
         (∀ s, jLookup pld (strLit "firstName") ≠ some (JVal.str s))) →
        verifyAuthToken c token secret now = none) := by
  refine ⟨?_, ?_, ?_, ?_, ?_, ?_⟩
  · intro token secret now h
    unfold verifyAuthToken
    rcases hs : splitOnDot token with _ | ⟨a, _ | ⟨b, _ | ⟨d, _ | ⟨e, t⟩⟩⟩⟩
    · rfl
    · rfl
    · rfl
    · rw [hs] at h; simp at h
    · rfl
  · intro token eh ep sig secret now hs hsig
    unfold verifyAuthToken
    rw [hs]
    simp [hsig]
  · intro token eh ep sig secret now hs hp
    unfold verifyAuthToken
    rw [hs]
    by_cases hsig0 : tokenSignatureCheck sig
        (base64UrlEncode (signHmac c (eh ++ 46 :: ep) secret)) = false
    · simp [hsig0]
    · simp [hsig0, hp]
  · intro token eh ep sig secret now hdr hs hh hcond
    unfold verifyAuthToken
    rw [hs]
    by_cases hsig0 : tokenSignatureCheck sig
        (base64UrlEncode (signHmac c (eh ++ 46 :: ep) secret)) = false
    · simp [hsig0]
    · simp [hsig0, hh, hcond]
  · intro token eh ep sig secret now hs hp
    unfold verifyAuthToken
    rw [hs]
    by_cases hsig0 : tokenSignatureCheck sig
        (base64UrlEncode (signHmac c (eh ++ 46 :: ep) secret)) = false
    · simp [hsig0]
    · cases hh : parseJson (base64UrlDecode eh) with
      | none => simp [hsig0, hh]
      | some hdr =>
          by_cases hcond : (jLookup hdr (strLit "alg") ≠ some (JVal.str (strLit "HS256")) ∨
              jLookup hdr (strLit "typ") ≠ some (JVal.str (strLit "JWT")))
          · simp [hsig0, hh, hcond]
          · simp [hsig0, hh, hcond, hp]
  · intro token eh ep sig secret now pld hs hp hbad
    unfold verifyAuthToken
    rw [hs]
    by_cases hsig0 : tokenSignatureCheck sig
        (base64UrlEncode (signHmac c (eh ++ 46 :: ep) secret)) = false
    · simp [hsig0]
    · cases hh : parseJson (base64UrlDecode eh) with
      | none => simp [hsig0, hh]
      | some hdr =>
          by_cases hcond : (jLookup hdr (strLit "alg") ≠ some (JVal.str (strLit "HS256")) ∨
              jLookup hdr (strLit "typ") ≠ some (JVal.str (strLit "JWT")))
          · simp [hsig0, hh, hcond]
          · simp only [hsig0, hh, hcond, hp]
            rcases hbad with hbad | hbad
            · cases h1 : jLookup pld (strLit "sub") with
              | none => simp [hsig0, hcond, h1]
              | some v1 =>
                  cases v1 with
                  | str s => exact absurd h1 (hbad s)
                  | num n => simp [hsig0, hcond, h1]
                  | bool b => simp [hsig0, hcond, h1]
                  | nul => simp [hsig0, hcond, h1]
            · cases h1 : jLookup pld (strLit "sub") with
              | none => simp [hsig0, hcond, h1]
              | some v1 =>
                  cases v1 with
                  | str s =>
                      cases h2 : jLookup pld (strLit "firstName") with
                      | none => simp [hsig0, hcond, h1, h2]
                      | some v2 =>
                          cases v2 with
                          | str s2 => exact absurd h2 (hbad s2)
                          | num n => simp [hsig0, hcond, h1, h2]
                          | bool b => simp [hsig0, hcond, h1, h2]
                          | nul => simp [hsig0, hcond, h1, h2]
                  | num n => simp [hsig0, hcond, h1]
                  | bool b => simp [hsig0, hcond, h1]
                  | nul => simp [hsig0, hcond, h1]

theorem c7_uniform_rejection_witness :
    (splitOnDot (strLit "ab")).length ≠ 3 ∧
    verifyAuthToken constCrypto (strLit "ab") (strLit "k") 0 = none :=
  ⟨by decide, (c7_uniform_rejection constCrypto).1 (strLit "ab") (strLit "k") 0 (by decide)⟩

end UnityPrepAuth
